import Mathlib

/-!
Verification of the column-mapper / data-normalizer logic of the finance
dashboard (`src/app.py`) against its natural-language specification.

The table model: a cell value is a typed value (`Val`), a row is an
association list from column name to value, a table is a list of rows.
External parsing routines (`pandas.to_numeric`, `pandas.to_datetime` and the
month projection `Series.dt.to_period "M"`) are abstracted as explicit
function parameters `pN : String → Option Int`, `pD : String → Option Int`
and `toMonth : Int → Int`; every theorem is universally quantified over them.
-/

deriving instance DecidableEq for Except

namespace Dashboard

/-- Typed cell value: raw string, numeric, calendar date (abstract integer
timestamp), or missing (pandas `NaN` / `NaT`). -/
inductive Val where
  | vstr : String → Val
  | vnum : Int → Val
  | vdate : Int → Val
  | na : Val
deriving DecidableEq

/-- A row: association list from column name to cell value. -/
abbrev Row := List (String × Val)

/-- Cell lookup by column name (first binding wins, like a pandas column);
a name absent from the row reads as missing. -/
def getCell : Row → String → Val
  | [], _ => .na
  | (c, v) :: rest, cq => if c = cq then v else getCell rest cq

/-- Apply `f` to every cell of column `c` of a row (pandas `df[c] = f(df[c])`). -/
def mapCol (c : String) (f : Val → Val) : Row → Row
  | [] => []
  | (a, v) :: rest => (if a = c then (a, f v) else (a, v)) :: mapCol c f rest

/-- `startsWithL needle hay`: `needle` is an initial segment of `hay`. -/
def startsWithL : List Char → List Char → Bool
  | [], _ => true
  | _ :: _, [] => false
  | a :: as, b :: bs => a == b && startsWithL as bs

/-- `hasSub needle hay`: `needle` occurs contiguously inside `hay`. -/
def hasSub (needle : List Char) : List Char → Bool
  | [] => startsWithL needle []
  | b :: bs => startsWithL needle (b :: bs) || hasSub needle bs

/-- Python's substring test `needle in hay` on strings. -/
def strContains (hay needle : String) : Bool :=
  hasSub needle.data hay.data

/-- Case-insensitive substring test (both sides lower-cased). -/
def ciContains (hay needle : String) : Bool :=
  hasSub (needle.data.map Char.toLower) (hay.data.map Char.toLower)

/-- `autosuggest` from `src/app.py` lines 77-82: for each keyword in priority
order, scan columns in their original order and return the first column whose
name contains the keyword (`k in c`, case-sensitive); `none` if no keyword
matches any column. -/
def autosuggest (cols : List String) : List String → Option String
  | [] => none
  | k :: ks =>
    match cols.find? (fun c => strContains c k) with
    | some c => some c
    | none => autosuggest cols ks

/-- Modelled from the spec words for `suggest_field`: the first keyword in
priority order that matches some column as a case-INSENSITIVE substring
selects the first matching column in original column order. -/
def suggest_field_spec (cols keywords : List String) : Option String :=
  match keywords.find? (fun k => cols.any (fun c => ciContains c k)) with
  | some k => cols.find? (fun c => ciContains c k)
  | none => none

/-- Same shape as `suggest_field_spec` but with the case-SENSITIVE substring
test actually used by the code. -/
def suggest_field_cs (cols keywords : List String) : Option String :=
  match keywords.find? (fun k => cols.any (fun c => strContains c k)) with
  | some k => cols.find? (fun c => strContains c k)
  | none => none

/-- `pd.to_numeric(col, errors="coerce")` on one cell, with the string parser
abstracted as `pN`: unparseable strings become missing, numerics are kept,
datetimes convert to their integer timestamp, missing stays missing. -/
def coerceNum (pN : String → Option Int) : Val → Val
  | .vstr s => match pN s with | some n => .vnum n | none => .na
  | .vnum n => .vnum n
  | .vdate d => .vnum d
  | .na => .na

/-- `pd.to_datetime(col, errors="coerce")` on one cell, with the string parser
abstracted as `pD`: unparseable strings become missing (`NaT`), datetimes are
kept, numerics are read as timestamps, missing stays missing. -/
def coerceDate (pD : String → Option Int) : Val → Val
  | .vstr s => match pD s with | some d => .vdate d | none => .na
  | .vdate d => .vdate d
  | .vnum n => .vdate n
  | .na => .na

/-- Column renaming of `load_csv` line 42: lower-case and replace spaces by
underscores (`c.lower().replace(" ", "_")`, written character-wise). -/
def normName (c : String) : String :=
  String.mk (c.data.map (fun ch =>
    let lch := ch.toLower
    if lch = ' ' then '_' else lch))

/-- Is this (renamed) column name numeric-coerced by `load_csv` lines 50-52? -/
def amountLike (c : String) : Bool :=
  strContains c "amount" || strContains c "expense" || strContains c "income"

/-- The per-row effect of `load_csv` lines 42-52: rename every column, coerce
every column whose name contains "date" to datetime, then coerce every column
whose name contains "amount", "expense" or "income" to numeric. -/
def loadCoerceRow (pN pD : String → Option Int) (r : Row) : Row :=
  let r1 := r.map (fun p => (normName p.1, p.2))
  let r2 := r1.map (fun p =>
    if strContains p.1 "date" then (p.1, coerceDate pD p.2) else p)
  r2.map (fun p => if amountLike p.1 then (p.1, coerceNum pN p.2) else p)

/-- A row with no missing cell (`df.dropna()` keeps exactly these). -/
def rowComplete (r : Row) : Bool :=
  r.all (fun p => p.2 ≠ Val.na)

/-- `load_csv` lines 38-55 applied to a successfully parsed table: rename,
coerce date-like and amount-like columns, then drop every row containing a
missing value in any column. -/
def load_csv (pN pD : String → Option Int) (t : List Row) : List Row :=
  (t.map (loadCoerceRow pN pD)).filter rowComplete

/-- The three sidebar selections of `src/app.py` lines 91-93. -/
structure FieldMapping where
  date_col : Option String
  amount_col : Option String
  category_col : Option String
deriving DecidableEq

/-- The blocking error of `src/app.py` lines 109-111 (`st.error` + `st.stop`
when no amount column is chosen). -/
inductive MappingError where
  | missingRequiredField
deriving DecidableEq

/-- The date conversion of lines 96-100: applied only when a date column is
chosen. -/
def coerceRowDate (pD : String → Option Int) (m : FieldMapping) (r : Row) : Row :=
  match m.date_col with
  | some dc => mapCol dc (coerceDate pD) r
  | none => r

/-- The amount conversion of lines 102-106: applied only when an amount column
is chosen. -/
def coerceRowAmount (pN : String → Option Int) (m : FieldMapping) (r : Row) : Row :=
  match m.amount_col with
  | some ac => mapCol ac (coerceNum pN) r
  | none => r

/-- One row after the two selected-column conversions of lines 96-106. -/
def normRow (pN pD : String → Option Int) (m : FieldMapping) (r : Row) : Row :=
  coerceRowAmount pN m (coerceRowDate pD m r)

/-- Lines 96-114 of `src/app.py` as one operation (`apply_mapping` of the
spec): convert the chosen date and amount columns, fail with
`MissingRequiredField` when no amount column is chosen, otherwise drop the
rows whose amount is missing after coercion (`df.dropna(subset=[amount_col])`). -/
def apply_mapping (pN pD : String → Option Int) (df : List Row)
    (m : FieldMapping) : Except MappingError (List Row) :=
  let df2 := df.map (normRow pN pD m)
  match m.amount_col with
  | none => .error .missingRequiredField
  | some ac => .ok (df2.filter (fun r => getCell r ac ≠ Val.na))

/-- Amount read of a cell for summation; the pipeline only sums columns whose
retained cells are numeric. -/
def numVal : Val → Int
  | .vnum n => n
  | _ => 0

/-- `df[amount_col].sum()` (lines 117 and 174). -/
def total_amount (df : List Row) (ac : String) : Int :=
  (df.map (fun r => numVal (getCell r ac))).sum

/-- The sidebar filter state (lines 155-169): the date-range widget always
yields an inclusive pair `(lo, hi)` (defaulting to column min/max), and the
category multiselect yields a possibly empty list of chosen values. -/
structure FilterState where
  lo : Int
  hi : Int
  cats : List Val
deriving DecidableEq

/-- The date-range test of lines 160-161: `(df[date_col] >= start) &
(df[date_col] <= end)`; comparisons against a missing date (`NaT`) are false,
so rows with missing dates are excluded. -/
def dateInRange (lo hi : Int) : Val → Bool
  | .vdate d => decide (lo ≤ d) && decide (d ≤ hi)
  | _ => false

/-- Lines 155-169 (`apply_filters` of the spec): when a date column is chosen,
keep rows whose date lies in the inclusive range; when a category column is
chosen and the selection is non-empty, keep rows whose category value is
selected; each unchosen dimension is skipped. -/
def apply_filters (df : List Row) (m : FieldMapping) (fs : FilterState) :
    List Row :=
  let df1 := match m.date_col with
    | some dc => df.filter (fun r => dateInRange fs.lo fs.hi (getCell r dc))
    | none => df
  match m.category_col with
  | some cc =>
    if fs.cats.isEmpty then df1
    else df1.filter (fun r => fs.cats.contains (getCell r cc))
  | none => df1

/-- Insert one observation into a month-keyed total list kept in ascending
key order, merging equal keys by addition. -/
def insertMonth (k : Int) (v : Int) : List (Int × Int) → List (Int × Int)
  | [] => [(k, v)]
  | (kh, vh) :: rest =>
    if k < kh then (k, v) :: (kh, vh) :: rest
    else if k = kh then (kh, vh + v) :: rest
    else (kh, vh) :: insertMonth k v rest

/-- `df.groupby(df[date_col].dt.to_period("M"))[amount_col].sum()` (lines 176
and 195): group the rows carrying a valid date by calendar-month key, sum the
amount per group, and present the groups in ascending key order; rows with a
missing date contribute to no group. -/
def aggregate_by_month (toMonth : Int → Int) (df : List Row) (dc ac : String) :
    List (Int × Int) :=
  match df with
  | [] => []
  | r :: rest =>
    let acc := aggregate_by_month toMonth rest dc ac
    match getCell r dc with
    | .vdate d => insertMonth (toMonth d) (numVal (getCell r ac)) acc
    | _ => acc

/-- The uncaught exception of line 176: `df[date_col]` with `date_col = None`
raises `KeyError` before any KPI of that section is rendered. -/
inductive KpiError where
  | keyError
deriving DecidableEq

/-- Lines 174-184 (`compute_kpis` of the spec section): total, average of the
per-month sums (`None` models the `NaN` mean of an empty series), and row
count. With no date column chosen, line 176 evaluates `df[None]` and raises. -/
def compute_kpis (toMonth : Int → Int) (df : List Row)
    (dateCol : Option String) (ac : String) :
    Except KpiError (Int × Option ℚ × Nat) :=
  let total := total_amount df ac
  match dateCol with
  | none => .error .keyError
  | some dc =>
    let monthly := aggregate_by_month toMonth df dc ac
    let avg : Option ℚ :=
      if monthly.length = 0 then none
      else some (((monthly.map (fun p => p.2)).sum : ℚ) / (monthly.length : ℚ))
    .ok (total, avg, df.length)

/-- The app-level error taxonomy of the spec. The code only ever produces
`unreadableFile` (the `except` of lines 57-59) and `missingRequiredField`
(lines 109-111); no check anywhere produces `emptyTable`. -/
inductive AppError where
  | unreadableFile
  | emptyTable
  | missingRequiredField
deriving DecidableEq

/-- The straight-line pipeline of `src/app.py` from upload to the first KPI
section (lines 38-123): a file that fails to parse is a blocking error,
otherwise the parsed table goes through `load_csv` cleaning, the mapping guard
and `apply_mapping`, and the safe KPI section returns the pair
(total amount, transaction count). There is no zero-row check. -/
def runPipeline (pN pD : String → Option Int) (parsed : Option (List Row))
    (m : FieldMapping) : Except AppError (Int × Nat) :=
  match parsed with
  | none => .error .unreadableFile
  | some t =>
    let df := load_csv pN pD t
    match m.amount_col with
    | none => .error .missingRequiredField
    | some ac =>
      match apply_mapping pN pD df m with
      | .error _ => .error .missingRequiredField
      | .ok out => .ok (total_amount out ac, out.length)

/-- Whether a cell holds a valid calendar date. -/
def Val.isDate : Val → Bool
  | .vdate _ => true
  | _ => false

/-- The date-dimension predicate actually applied by lines 155-161: pass
everything when no date column is chosen, otherwise require the date cell to
lie in the inclusive range (missing dates fail). -/
def codeDatePass (m : FieldMapping) (fs : FilterState) (r : Row) : Bool :=
  match m.date_col with
  | some dc => dateInRange fs.lo fs.hi (getCell r dc)
  | none => true

/-- The category-dimension predicate actually applied by lines 163-169: pass
everything when no category column is chosen or the selection is empty,
otherwise require membership in the selection. -/
def codeCatPass (m : FieldMapping) (fs : FilterState) (r : Row) : Bool :=
  match m.category_col with
  | some cc => fs.cats.isEmpty || fs.cats.contains (getCell r cc)
  | none => true

/-- Modelled from the spec words for the date filter dimension: with a date
field mapped, retain rows whose date falls within the inclusive range after
excluding rows with missing date; with no date field mapped the dimension is
disabled. -/
def specDatePass (m : FieldMapping) (fs : FilterState) (r : Row) : Bool :=
  match m.date_col with
  | none => true
  | some dc =>
    match getCell r dc with
    | .vdate d => decide (fs.lo ≤ d ∧ d ≤ fs.hi)
    | _ => false

/-- Modelled from the spec words for the category filter dimension: with a
category field mapped and a non-empty selection, retain rows whose category
value is a member of the selection; an empty selection or an unmapped field
disables the dimension. -/
def specCatPass (m : FieldMapping) (fs : FilterState) (r : Row) : Bool :=
  match m.category_col with
  | none => true
  | some cc =>
    if fs.cats = [] then true else fs.cats.contains (getCell r cc)

/-- A concrete decimal-digit parser, used to instantiate the abstract parser
parameters `pN` / `pD` on concrete inputs. -/
def parseDigits (s : String) : Option Int :=
  s.data.foldl (fun acc c =>
    match acc with
    | none => none
    | some n => if c.isDigit then some (n * 10 + ((c.toNat : Int) - 48)) else none)
    (some 0)

-- scratch sanity checks
example : strContains "transaction_date" "date" = true := by decide
example : strContains "Amount" "amount" = false := by decide
example : ciContains "Amount" "amount" = true := by decide
example : autosuggest ["Amount"] ["amount"] = none := by decide
example : suggest_field_spec ["Amount"] ["amount"] = some "Amount" := by decide
example : autosuggest ["note", "amt_col", "price"] ["amount", "amt", "price"]
    = some "amt_col" := by decide

-- scenario 1 of the spec, with a toy parser reading decimal integers
example :
    apply_mapping parseDigits parseDigits
      [[("date", Val.vstr "105"), ("amt", Val.vstr "100"), ("cat", Val.vstr "food")],
       [("date", Val.vstr "120"), ("amt", Val.vstr "bad"), ("cat", Val.vstr "food")],
       [("date", Val.vstr "201"), ("amt", Val.vstr "50"), ("cat", Val.vstr "transport")]]
      ⟨some "date", some "amt", some "cat"⟩
    = .ok
      [[("date", Val.vdate 105), ("amt", Val.vnum 100), ("cat", Val.vstr "food")],
       [("date", Val.vdate 201), ("amt", Val.vnum 50), ("cat", Val.vstr "transport")]] := by
  decide

example :
    aggregate_by_month (fun d => d / 100)
      [[("date", Val.vdate 105), ("amt", Val.vnum 100)],
       [("date", Val.vdate 201), ("amt", Val.vnum 50)],
       [("date", Val.na), ("amt", Val.vnum 7)]]
      "date" "amt"
    = [(1, 100), (2, 50)] := by decide

example :
    runPipeline parseDigits parseDigits (some []) ⟨none, some "amt", none⟩
    = .ok (0, 0) := by rfl

example :
    compute_kpis (fun d => d / 100) [[("amt", Val.vnum 5)]] none "amt"
    = .error .keyError := by rfl

/-! ## Helper lemmas -/

theorem find?_some_of_any {p : String → Bool} {cols : List String}
    (h : cols.any p = true) : ∃ c, cols.find? p = some c := by
  rcases List.any_eq_true.mp h with ⟨x, hx, hpx⟩
  rcases List.find?_isSome.mpr ⟨x, hx, hpx⟩ with h2
  exact Option.isSome_iff_exists.mp h2

theorem autosuggest_eq_cs (cols keys : List String) :
    autosuggest cols keys = suggest_field_cs cols keys := by
  induction keys with
  | nil => rfl
  | cons k ks ih =>
    by_cases h : cols.any (fun c => strContains c k) = true
    · rcases find?_some_of_any h with ⟨c, hc⟩
      unfold autosuggest suggest_field_cs
      rw [hc,
        show List.find? (fun k2 => cols.any fun c2 => strContains c2 k2) (k :: ks)
            = some k from List.find?_cons_of_pos _ h]
      exact hc.symm
    · have hn : cols.find? (fun c => strContains c k) = none := by
        rw [List.find?_eq_none]
        intro x hx
        simp only [Bool.not_eq_true]
        by_contra hcontra
        exact h (List.any_eq_true.mpr ⟨x, hx, by simpa using hcontra⟩)
      unfold autosuggest suggest_field_cs
      rw [hn, List.find?_cons_of_neg _ (by simpa using h), ih]
      rfl

theorem getCell_mapCol_of_ne {c cq : String} (f : Val → Val) (r : Row)
    (h : cq ≠ c) : getCell (mapCol c f r) cq = getCell r cq := by
  induction r with
  | nil => rfl
  | cons p rest ih =>
    obtain ⟨a, v⟩ := p
    simp only [mapCol]
    by_cases hac : a = c
    · subst hac
      have hne : ¬ a = cq := fun hh => h (hh ▸ rfl)
      rw [if_pos rfl]
      simp only [getCell, if_neg hne]
      exact ih
    · rw [if_neg hac]
      simp only [getCell]
      by_cases hacq : a = cq
      · simp [hacq]
      · simp only [if_neg hacq]
        exact ih

theorem getCell_mapCol_self {c : String} (f : Val → Val) (r : Row) :
    getCell (mapCol c f r) c = Val.na ∨
    getCell (mapCol c f r) c = f (getCell r c) := by
  induction r with
  | nil => exact Or.inl rfl
  | cons p rest ih =>
    obtain ⟨a, v⟩ := p
    simp only [mapCol]
    by_cases hac : a = c
    · subst hac
      right
      rw [if_pos rfl]
      simp [getCell]
    · rw [if_neg hac]
      simp only [getCell, if_neg hac]
      exact ih

theorem getCell_mapCol_self_of_present {c : String} (f : Val → Val) (r : Row)
    (h : getCell r c ≠ Val.na) :
    getCell (mapCol c f r) c = f (getCell r c) := by
  induction r with
  | nil => exact absurd rfl h
  | cons p rest ih =>
    obtain ⟨a, v⟩ := p
    simp only [mapCol]
    by_cases hac : a = c
    · subst hac
      rw [if_pos rfl]
      simp [getCell]
    · simp only [getCell, if_neg hac] at h
      rw [if_neg hac]
      simp only [getCell, if_neg hac]
      exact ih h

theorem coerceNum_num_or_na (pN : String → Option Int) (v : Val) :
    (∃ n, coerceNum pN v = Val.vnum n) ∨ coerceNum pN v = Val.na := by
  cases v with
  | vstr s =>
    cases h : pN s with
    | some n => exact Or.inl ⟨n, by simp [coerceNum, h]⟩
    | none => exact Or.inr (by simp [coerceNum, h])
  | vnum n => exact Or.inl ⟨n, rfl⟩
  | vdate d => exact Or.inl ⟨d, rfl⟩
  | na => exact Or.inr rfl

theorem coerceDate_date_or_na (pD : String → Option Int) (v : Val) :
    (∃ d, coerceDate pD v = Val.vdate d) ∨ coerceDate pD v = Val.na := by
  cases v with
  | vstr s =>
    cases h : pD s with
    | some d => exact Or.inl ⟨d, by simp [coerceDate, h]⟩
    | none => exact Or.inr (by simp [coerceDate, h])
  | vnum n => exact Or.inl ⟨n, rfl⟩
  | vdate d => exact Or.inl ⟨d, rfl⟩
  | na => exact Or.inr rfl

theorem normRow_eq_mapCol (pN pD : String → Option Int) {m : FieldMapping}
    {ac : String} (hac : m.amount_col = some ac) (r : Row) :
    normRow pN pD m r = mapCol ac (coerceNum pN) (coerceRowDate pD m r) := by
  unfold normRow coerceRowAmount
  rw [hac]

theorem apply_mapping_ok (pN pD : String → Option Int) {df out : List Row}
    {m : FieldMapping} {ac : String} (hac : m.amount_col = some ac)
    (hout : apply_mapping pN pD df m = .ok out) :
    out = (df.map (normRow pN pD m)).filter
      (fun r => getCell r ac ≠ Val.na) := by
  unfold apply_mapping at hout
  rw [hac] at hout
  exact (Except.ok.injEq _ _ |>.mp hout).symm

theorem apply_filters_eq_filter (df : List Row) (m : FieldMapping)
    (fs : FilterState) :
    apply_filters df m fs
      = df.filter (fun r => codeDatePass m fs r && codeCatPass m fs r) := by
  unfold apply_filters codeDatePass codeCatPass
  cases m.date_col with
  | none =>
    cases m.category_col with
    | none => simp
    | some cc =>
      by_cases hc : fs.cats.isEmpty
      · simp [hc]
      · simp only [hc, Bool.false_or, Bool.true_and]
        simp at hc
        simp [hc]
  | some dc =>
    cases m.category_col with
    | none => simp
    | some cc =>
      by_cases hc : fs.cats.isEmpty
      · simp [hc]
      · simp only [hc, Bool.false_or]
        simp only [Bool.not_eq_true] at hc
        rw [if_neg (by simp [hc])]
        rw [List.filter_filter]
        exact List.filter_congr (fun r _ => by rw [Bool.and_comm])

theorem codeDatePass_eq_spec (m : FieldMapping) (fs : FilterState) (r : Row) :
    codeDatePass m fs r = specDatePass m fs r := by
  unfold codeDatePass specDatePass
  cases m.date_col with
  | none => rfl
  | some dc => cases getCell r dc <;> simp [dateInRange, Bool.decide_and]

theorem codeCatPass_eq_spec (m : FieldMapping) (fs : FilterState) (r : Row) :
    codeCatPass m fs r = specCatPass m fs r := by
  unfold codeCatPass specCatPass
  cases m.category_col with
  | none => rfl
  | some cc =>
    by_cases hc : fs.cats = []
    · simp [hc]
    · simp [hc, List.isEmpty_iff]

theorem insertMonth_sum (k v : Int) (l : List (Int × Int)) :
    ((insertMonth k v l).map (fun p => p.2)).sum
      = v + (l.map (fun p => p.2)).sum := by
  induction l with
  | nil => simp [insertMonth]
  | cons p rest ih =>
    obtain ⟨kh, vh⟩ := p
    unfold insertMonth
    by_cases h1 : k < kh
    · simp [if_pos h1]
    · by_cases h2 : k = kh
      · rw [if_neg h1, if_pos h2]
        simp only [List.map_cons, List.sum_cons]
        omega
      · rw [if_neg h1, if_neg h2]
        simp only [List.map_cons, List.sum_cons, ih]
        omega

theorem insertMonth_key_mem {k v : Int} {l : List (Int × Int)} :
    ∀ x ∈ insertMonth k v l, x.1 = k ∨ ∃ y ∈ l, x.1 = y.1 := by
  induction l with
  | nil =>
    intro x hx
    simp only [insertMonth, List.mem_singleton] at hx
    exact Or.inl (by rw [hx])
  | cons p rest ih =>
    obtain ⟨kh, vh⟩ := p
    intro x hx
    unfold insertMonth at hx
    by_cases h1 : k < kh
    · rw [if_pos h1] at hx
      rcases List.mem_cons.mp hx with rfl | hx2
      · exact Or.inl rfl
      · exact Or.inr ⟨x, hx2, rfl⟩
    · by_cases h2 : k = kh
      · rw [if_neg h1, if_pos h2] at hx
        rcases List.mem_cons.mp hx with rfl | hx2
        · exact Or.inr ⟨(kh, vh), List.mem_cons_self _ _, rfl⟩
        · exact Or.inr ⟨x, List.mem_cons_of_mem _ hx2, rfl⟩
      · rw [if_neg h1, if_neg h2] at hx
        rcases List.mem_cons.mp hx with rfl | hx2
        · exact Or.inr ⟨(kh, vh), List.mem_cons_self _ _, rfl⟩
        · rcases ih x hx2 with hk | ⟨y, hy, hyy⟩
          · exact Or.inl hk
          · exact Or.inr ⟨y, List.mem_cons_of_mem _ hy, hyy⟩

theorem insertMonth_sorted {k v : Int} {l : List (Int × Int)}
    (h : List.Pairwise (fun a b => a.1 < b.1) l) :
    List.Pairwise (fun a b => a.1 < b.1) (insertMonth k v l) := by
  induction l with
  | nil => simp [insertMonth]
  | cons p rest ih =>
    obtain ⟨kh, vh⟩ := p
    rcases List.pairwise_cons.mp h with ⟨hhead, htail⟩
    unfold insertMonth
    by_cases h1 : k < kh
    · rw [if_pos h1]
      refine List.Pairwise.cons ?_ h
      intro y hy
      rcases List.mem_cons.mp hy with rfl | hy2
      · exact h1
      · exact lt_trans h1 (hhead y hy2)
    · by_cases h2 : k = kh
      · rw [if_neg h1, if_pos h2]
        exact List.Pairwise.cons hhead htail
      · rw [if_neg h1, if_neg h2]
        refine List.Pairwise.cons ?_ (ih htail)
        intro y hy
        rcases insertMonth_key_mem y hy with hk | ⟨z, hz, hzz⟩
        · rw [hk]; omega
        · rw [hzz]; exact hhead z hz

theorem aggregate_by_month_pairwise (tm : Int → Int) (l : List Row)
    (dc ac : String) :
    List.Pairwise (fun a b => a.1 < b.1) (aggregate_by_month tm l dc ac) := by
  induction l with
  | nil => simp [aggregate_by_month]
  | cons r rest ih =>
    unfold aggregate_by_month
    cases getCell r dc with
    | vdate d => exact insertMonth_sorted ih
    | vstr s => exact ih
    | vnum n => exact ih
    | na => exact ih

theorem aggregate_by_month_sum_eq (tm : Int → Int) (l : List Row)
    (dc ac : String) (h : ∀ r ∈ l, ∃ d, getCell r dc = Val.vdate d) :
    ((aggregate_by_month tm l dc ac).map (fun p => p.2)).sum
      = total_amount l ac := by
  induction l with
  | nil => rfl
  | cons r rest ih =>
    rcases h r (List.mem_cons_self _ _) with ⟨d, hd⟩
    have ih2 := ih (fun r2 hr2 => h r2 (List.mem_cons_of_mem _ hr2))
    unfold aggregate_by_month
    rw [hd, insertMonth_sum, ih2]
    simp [total_amount]

theorem aggregate_by_month_cons (tm : Int → Int) (r : Row) (rest : List Row)
    (dc ac : String) :
    aggregate_by_month tm (r :: rest) dc ac
      = match getCell r dc with
        | .vdate d =>
          insertMonth (tm d) (numVal (getCell r ac))
            (aggregate_by_month tm rest dc ac)
        | _ => aggregate_by_month tm rest dc ac := rfl

theorem aggregate_by_month_skip_nondate (tm : Int → Int) (l : List Row)
    (dc ac : String) :
    aggregate_by_month tm l dc ac
      = aggregate_by_month tm
          (l.filter (fun r => (getCell r dc).isDate)) dc ac := by
  induction l with
  | nil => rfl
  | cons r rest ih =>
    cases hv : getCell r dc with
    | vdate d =>
      rw [List.filter_cons_of_pos (by simp [hv, Val.isDate]),
        aggregate_by_month_cons, aggregate_by_month_cons, hv, ih]
    | vstr s =>
      rw [List.filter_cons_of_neg (by simp [hv, Val.isDate]),
        aggregate_by_month_cons, hv, ih]
    | vnum n =>
      rw [List.filter_cons_of_neg (by simp [hv, Val.isDate]),
        aggregate_by_month_cons, hv, ih]
    | na =>
      rw [List.filter_cons_of_neg (by simp [hv, Val.isDate]),
        aggregate_by_month_cons, hv, ih]

theorem mem_load_csv {pN pD : String → Option Int} {t : List Row} {r : Row} :
    r ∈ load_csv pN pD t
      ↔ (∃ r0 ∈ t, loadCoerceRow pN pD r0 = r) ∧ rowComplete r = true := by
  simp [load_csv, List.mem_filter, List.mem_map]

theorem load_csv_no_na {pN pD : String → Option Int} {t : List Row} :
    ∀ r ∈ load_csv pN pD t, ∀ p ∈ r, p.2 ≠ Val.na := by
  intro r hr p hp
  have hcomp := (mem_load_csv.mp hr).2
  rw [rowComplete, List.all_eq_true] at hcomp
  simpa using hcomp p hp

theorem load_csv_typed {pN pD : String → Option Int} {t : List Row} :
    ∀ r ∈ load_csv pN pD t, ∀ p ∈ r,
      (amountLike p.1 = true → ∃ n, p.2 = Val.vnum n) ∧
      (strContains p.1 "date" = true → amountLike p.1 = false →
        ∃ d, p.2 = Val.vdate d) := by
  intro r hr p hp
  have hna : p.2 ≠ Val.na := load_csv_no_na r hr p hp
  rcases (mem_load_csv.mp hr).1 with ⟨r0, _, rfl⟩
  simp only [loadCoerceRow] at hp
  rcases List.mem_map.mp hp with ⟨q, hq, hfq⟩
  by_cases hq1 : amountLike q.1 = true
  · rw [if_pos hq1] at hfq
    constructor
    · intro _
      rcases coerceNum_num_or_na pN q.2 with ⟨n, hn⟩ | hn
      · exact ⟨n, by rw [← hfq]; exact hn⟩
      · exact absurd (by rw [← hfq]; exact hn) hna
    · intro _ hfalse
      rw [← hfq] at hfalse
      exact absurd hq1 (by simp [hfalse])
  · rw [if_neg hq1] at hfq
    subst hfq
    constructor
    · intro htrue
      exact absurd htrue hq1
    · intro hdate _
      rcases List.mem_map.mp hq with ⟨q1, _, hfq1⟩
      by_cases hd1 : strContains q1.1 "date" = true
      · rw [if_pos hd1] at hfq1
        rcases coerceDate_date_or_na pD q1.2 with ⟨d, hd⟩ | hd
        · exact ⟨d, by rw [← hfq1]; exact hd⟩
        · exact absurd (by rw [← hfq1]; exact hd) hna
      · rw [if_neg hd1] at hfq1
        subst hfq1
        exact absurd hdate hd1

/-! ## Claim theorems -/

/-- Claim C1, counterexample: the claim requires `autosuggest` to match a
keyword against a column name as a case-insensitive substring, but the code
performs a case-sensitive `k in c` test: on columns `["Amount"]` with keyword
list `["amount"]` the case-insensitive rule mandated by the spec selects
`"Amount"`, while `autosuggest` returns no suggestion. -/
theorem autosuggest_case_insensitive_cex :
    autosuggest ["Amount"] ["amount"] = none ∧
    suggest_field_spec ["Amount"] ["amount"] = some "Amount" := by
  decide

/-- Claim C1, amended: `autosuggest` returns a member of the column list or
no suggestion, and it implements exactly the priority rule of the spec with a
case-SENSITIVE substring test: the first keyword in priority order that
matches some column selects the first matching column in original column
order, so a column matching only a lower-priority keyword is never returned
when some column matches a higher-priority keyword. (In the app the column
names have been lower-cased by `load_csv` and all built-in keywords are
lower-case, so the two readings coincide there.) -/
theorem autosuggest_amended (cols keys : List String) :
    (∀ c, autosuggest cols keys = some c → c ∈ cols) ∧
    autosuggest cols keys = suggest_field_cs cols keys := by
  refine ⟨?_, autosuggest_eq_cs cols keys⟩
  intro c hc
  rw [autosuggest_eq_cs] at hc
  unfold suggest_field_cs at hc
  cases hk : keys.find? (fun k => cols.any fun c2 => strContains c2 k) with
  | none => rw [hk] at hc; exact absurd hc (by simp)
  | some k =>
    rw [hk] at hc
    exact List.mem_of_find?_eq_some hc

/-- Witness for the amended C1 at a concrete input. -/
theorem autosuggest_amended_witness :
    ("amt_col" ∈ ["amt_col", "note"]) ∧
    autosuggest ["amt_col", "note"] ["amount", "amt"]
      = suggest_field_cs ["amt_col", "note"] ["amount", "amt"] :=
  ⟨(autosuggest_amended ["amt_col", "note"] ["amount", "amt"]).1 "amt_col"
      (by decide),
    (autosuggest_amended ["amt_col", "note"] ["amount", "amt"]).2⟩

/-- Claim C2: with no amount column chosen, `apply_mapping` fails with
`MissingRequiredField` regardless of the date and category choices, and the
whole pipeline stops with that error before any KPI is computed. The
embedding is pure, so the raw table `df` and the mapping `m` passed in are
untouched by the failure. -/
theorem apply_mapping_missing_amount (pN pD : String → Option Int)
    (df t : List Row) (m : FieldMapping) (h : m.amount_col = none) :
    apply_mapping pN pD df m = .error .missingRequiredField ∧
    runPipeline pN pD (some t) m = .error AppError.missingRequiredField := by
  constructor
  · unfold apply_mapping
    rw [h]
  · unfold runPipeline
    rw [h]

/-- Witness for C2 at a concrete input. -/
theorem apply_mapping_missing_amount_witness :
    apply_mapping parseDigits parseDigits [[("cat", Val.vstr "food")]]
        ⟨some "date", none, some "cat"⟩
      = .error .missingRequiredField ∧
    runPipeline parseDigits parseDigits (some [[("cat", Val.vstr "food")]])
        ⟨some "date", none, some "cat"⟩
      = .error AppError.missingRequiredField :=
  apply_mapping_missing_amount parseDigits parseDigits
    [[("cat", Val.vstr "food")]] [[("cat", Val.vstr "food")]]
    ⟨some "date", none, some "cat"⟩ rfl

/-- Claim C3: with an amount column chosen, every row of the table produced
by `apply_mapping` carries a successfully coerced numeric amount, and any
input row whose amount fails numeric coercion is excluded from the result. -/
theorem apply_mapping_amount_nonmissing (pN pD : String → Option Int)
    (df out : List Row) (m : FieldMapping) (ac : String)
    (hac : m.amount_col = some ac)
    (hout : apply_mapping pN pD df m = .ok out) :
    (∀ r ∈ out, ∃ n, getCell r ac = Val.vnum n) ∧
    (∀ r0 ∈ df, getCell (normRow pN pD m r0) ac = Val.na →
      normRow pN pD m r0 ∉ out) := by
  have ho := apply_mapping_ok pN pD hac hout
  subst ho
  constructor
  · intro r hr
    rcases List.mem_filter.mp hr with ⟨hrm, hpred⟩
    have hne : getCell r ac ≠ Val.na := by simpa using hpred
    rcases List.mem_map.mp hrm with ⟨r0, _, rfl⟩
    rw [normRow_eq_mapCol pN pD hac] at hne ⊢
    rcases getCell_mapCol_self (coerceNum pN) (coerceRowDate pD m r0) with
      hna | heq
    · exact absurd hna hne
    · rcases coerceNum_num_or_na pN (getCell (coerceRowDate pD m r0) ac) with
        ⟨n, hn⟩ | hna2
      · exact ⟨n, heq.trans hn⟩
      · exact absurd (heq.trans hna2) hne
  · intro r0 _ hna hmem
    rcases List.mem_filter.mp hmem with ⟨_, hpred⟩
    have hcell : getCell (normRow pN pD m r0) ac ≠ Val.na := by simpa using hpred
    exact hcell hna

/-- Witness for C3 at a concrete input. -/
theorem apply_mapping_amount_nonmissing_witness :
    ∃ n, getCell [("amt", Val.vnum 5)] "amt" = Val.vnum n :=
  (apply_mapping_amount_nonmissing parseDigits parseDigits
      [[("amt", Val.vstr "5")], [("amt", Val.vstr "bad")]]
      [[("amt", Val.vnum 5)]] ⟨none, some "amt", none⟩ "amt" rfl (by rfl)).1
    [("amt", Val.vnum 5)] (by decide)

/-- Claim C4: with both a date and an amount column chosen, the mapping step
retains every row whose coerced amount is non-missing, regardless of its date
value; a date cell whose raw string fails date parsing becomes missing
(rather than dropping the row); and the downstream monthly aggregation is
unchanged by removing the rows with missing dates, i.e. it ignores exactly
those rows. Date-range filtering likewise excludes missing dates (see the C7
characterization). -/
theorem apply_mapping_date_failure_retained (pN pD : String → Option Int)
    (tm : Int → Int) (df out : List Row) (m : FieldMapping) (dc ac : String)
    (hdc : m.date_col = some dc) (hac : m.amount_col = some ac)
    (hne : dc ≠ ac) (hout : apply_mapping pN pD df m = .ok out) :
    (∀ r0 ∈ df, getCell (normRow pN pD m r0) ac ≠ Val.na →
        normRow pN pD m r0 ∈ out) ∧
    (∀ r0 s, getCell r0 dc = Val.vstr s → pD s = none →
        getCell (normRow pN pD m r0) dc = Val.na) ∧
    aggregate_by_month tm out dc ac
      = aggregate_by_month tm
          (out.filter (fun r => (getCell r dc).isDate)) dc ac := by
  have ho := apply_mapping_ok pN pD hac hout
  subst ho
  refine ⟨?_, ?_, aggregate_by_month_skip_nondate tm _ dc ac⟩
  · intro r0 hr0 hok
    exact List.mem_filter.mpr ⟨List.mem_map_of_mem _ hr0, by simpa using hok⟩
  · intro r0 s hs hpd
    rw [normRow_eq_mapCol pN pD hac, getCell_mapCol_of_ne _ _ hne]
    unfold coerceRowDate
    rw [hdc]
    rw [getCell_mapCol_self_of_present _ _
      (by rw [hs]; exact fun hcon => Val.noConfusion hcon)]
    rw [hs]
    simp [coerceDate, hpd]

/-- Witness for C4 at a concrete input. -/
theorem apply_mapping_date_failure_retained_witness :
    getCell (normRow parseDigits parseDigits ⟨some "d", some "amt", none⟩
        [("d", Val.vstr "x"), ("amt", Val.vstr "5")]) "d" = Val.na ∧
    normRow parseDigits parseDigits ⟨some "d", some "amt", none⟩
        [("d", Val.vstr "x"), ("amt", Val.vstr "5")]
      ∈ [[("d", Val.na), ("amt", Val.vnum 5)]] := by
  have h := apply_mapping_date_failure_retained parseDigits parseDigits
    (fun d => d) [[("d", Val.vstr "x"), ("amt", Val.vstr "5")]]
    [[("d", Val.na), ("amt", Val.vnum 5)]]
    ⟨some "d", some "amt", none⟩ "d" "amt" rfl rfl (by decide) (by rfl)
  exact ⟨h.2.1 [("d", Val.vstr "x"), ("amt", Val.vstr "5")] "x" (by decide)
      (by decide),
    h.1 [("d", Val.vstr "x"), ("amt", Val.vstr "5")] (by decide) (by decide)⟩

/-- Claim C5, code bug: the KPI section of lines 174-184 evaluates
`df[date_col]` at line 176 without guarding against `date_col = None`, so
with no date column chosen it raises `KeyError` instead of reporting the
average monthly spend as "not applicable" — and since the exception aborts
the script, the transaction-count KPI of that section is never rendered
either, although the total is computable from the same table. When a date
column IS chosen but every date is missing, the mean of the empty per-month
series is `NaN` ("not applicable", modelled `none`) and total and count are
produced as the claim says. -/
theorem compute_kpis_keyerror_without_date :
    compute_kpis (fun d => d / 100) [[("amount", Val.vnum 5)]] none "amount"
      = .error .keyError ∧
    total_amount [[("amount", Val.vnum 5)]] "amount" = 5 ∧
    compute_kpis (fun d => d / 100)
        [[("amount", Val.vnum 5), ("when", Val.na)]] (some "when") "amount"
      = .ok (5, none, 1) := by
  refine ⟨rfl, by decide, rfl⟩

/-- Claim C6: over any filtered table with a date column mapped, the monthly
aggregation is chronologically ordered (non-decreasing month keys) and its
per-month totals sum to the total-amount KPI of the same filtered table. -/
theorem aggregate_by_month_sorted_total (tm : Int → Int) (df : List Row)
    (m : FieldMapping) (fs : FilterState) (dc ac : String)
    (hdc : m.date_col = some dc) :
    List.Pairwise (fun a b => a.1 ≤ b.1)
      (aggregate_by_month tm (apply_filters df m fs) dc ac) ∧
    ((aggregate_by_month tm (apply_filters df m fs) dc ac).map
        (fun p => p.2)).sum
      = total_amount (apply_filters df m fs) ac := by
  constructor
  · exact (aggregate_by_month_pairwise tm _ dc ac).imp (fun h => le_of_lt h)
  · refine aggregate_by_month_sum_eq tm _ dc ac ?_
    intro r hr
    rw [apply_filters_eq_filter] at hr
    rcases List.mem_filter.mp hr with ⟨_, hp⟩
    have hd : codeDatePass m fs r = true := ((Bool.and_eq_true _ _).mp hp).1
    unfold codeDatePass at hd
    rw [hdc] at hd
    have hd2 : dateInRange fs.lo fs.hi (getCell r dc) = true := hd
    cases hv : getCell r dc with
    | vdate d => exact ⟨d, rfl⟩
    | vstr s => rw [hv] at hd2; exact absurd hd2 (by simp [dateInRange])
    | vnum n => rw [hv] at hd2; exact absurd hd2 (by simp [dateInRange])
    | na => rw [hv] at hd2; exact absurd hd2 (by simp [dateInRange])

/-- Witness for C6 at a concrete input. -/
theorem aggregate_by_month_sorted_total_witness :
    List.Pairwise (fun a b => a.1 ≤ b.1)
      (aggregate_by_month (fun d => d / 100)
        (apply_filters
          [[("d", Val.vdate 201), ("amt", Val.vnum 50)],
           [("d", Val.vdate 105), ("amt", Val.vnum 100)]]
          ⟨some "d", some "amt", none⟩ ⟨0, 10000, []⟩) "d" "amt") ∧
    ((aggregate_by_month (fun d => d / 100)
        (apply_filters
          [[("d", Val.vdate 201), ("amt", Val.vnum 50)],
           [("d", Val.vdate 105), ("amt", Val.vnum 100)]]
          ⟨some "d", some "amt", none⟩ ⟨0, 10000, []⟩) "d" "amt").map
      (fun p => p.2)).sum
      = total_amount
          (apply_filters
            [[("d", Val.vdate 201), ("amt", Val.vnum 50)],
             [("d", Val.vdate 105), ("amt", Val.vnum 100)]]
            ⟨some "d", some "amt", none⟩ ⟨0, 10000, []⟩) "amt" :=
  aggregate_by_month_sorted_total (fun d => d / 100)
    [[("d", Val.vdate 201), ("amt", Val.vnum 50)],
     [("d", Val.vdate 105), ("amt", Val.vnum 100)]]
    ⟨some "d", some "amt", none⟩ ⟨0, 10000, []⟩ "d" "amt" rfl

/-- Claim C7: `apply_filters` retains exactly the rows passing both active
dimensions (logical AND), where the date dimension — active when a date
column is mapped — keeps rows whose date lies in the inclusive range after
excluding missing dates, and the category dimension — active when a category
column is mapped and the selection is non-empty — keeps rows whose category
value is selected; an unmapped field silently disables its dimension. The
right-hand predicates are written from the spec's words. -/
theorem apply_filters_characterization (df : List Row) (m : FieldMapping)
    (fs : FilterState) :
    apply_filters df m fs
      = df.filter (fun r => specDatePass m fs r && specCatPass m fs r) := by
  rw [apply_filters_eq_filter]
  exact List.filter_congr
    (fun r _ => by rw [codeDatePass_eq_spec, codeCatPass_eq_spec])

/-- Claim C8: `apply_filters` is idempotent: applying the same filter state
twice yields the same table as applying it once. -/
theorem apply_filters_idempotent (df : List Row) (m : FieldMapping)
    (fs : FilterState) :
    apply_filters (apply_filters df m fs) m fs = apply_filters df m fs := by
  simp only [apply_filters_eq_filter]
  rw [List.filter_filter]
  exact List.filter_congr (fun r _ => Bool.and_self _)

/-- Claim C9, counterexample: the claim requires a parsed table with zero
data rows to fail with `EmptyTable` before mapping or KPI computation, but no
such check exists anywhere in the code: with an amount column chosen the
pipeline runs to completion on the empty table and yields the KPI pair
(total 0, count 0). -/
theorem empty_table_no_error_cex :
    runPipeline parseDigits parseDigits (some []) ⟨none, some "amt", none⟩
      = .ok (0, 0) ∧
    runPipeline parseDigits parseDigits (some []) ⟨none, some "amt", none⟩
      ≠ .error AppError.emptyTable := by
  constructor
  · rfl
  · decide

/-- Claim C9, amended: the pipeline never produces an `EmptyTable` error; a
file that parses to zero data rows proceeds through mapping and KPI
computation and (with an amount column chosen) yields total 0 and count 0. -/
theorem runPipeline_no_emptyTable (pN pD : String → Option Int)
    (m : FieldMapping) (ac : String) (hac : m.amount_col = some ac) :
    (∀ parsed, runPipeline pN pD parsed m ≠ .error AppError.emptyTable) ∧
    runPipeline pN pD (some []) m = .ok (0, 0) := by
  have hrun : ∀ t : List Row, runPipeline pN pD (some t) m
      = match apply_mapping pN pD (load_csv pN pD t) m with
        | .error _ => .error AppError.missingRequiredField
        | .ok out => .ok (total_amount out ac, out.length) := by
    intro t
    unfold runPipeline
    rw [hac]
  constructor
  · intro parsed
    cases parsed with
    | none => simp [runPipeline]
    | some t =>
      rw [hrun t]
      cases apply_mapping pN pD (load_csv pN pD t) m with
      | error e => simp
      | ok out => simp
  · rw [hrun []]
    have hmap : apply_mapping pN pD (load_csv pN pD []) m = .ok [] := by
      unfold apply_mapping load_csv
      rw [hac]
      rfl
    rw [hmap]
    rfl

/-- Witness for the amended C9 at a concrete input. -/
theorem runPipeline_no_emptyTable_witness :
    (∀ parsed, runPipeline parseDigits parseDigits parsed
        ⟨none, some "amt", none⟩ ≠ .error AppError.emptyTable) ∧
    runPipeline parseDigits parseDigits (some [])
        ⟨none, some "amt", none⟩ = .ok (0, 0) :=
  runPipeline_no_emptyTable parseDigits parseDigits
    ⟨none, some "amt", none⟩ "amt" rfl

/-- Claim C10: `load_csv` renames columns and then, before any user mapping,
coerces every column whose (lower-cased) name contains "date" to dates and
every column whose name contains "amount", "expense" or "income" to numbers,
and finally drops every row containing a missing value in ANY column: every
surviving cell is non-missing, surviving amount-like cells are numeric,
surviving date-like (and not amount-like) cells are dates, a coerced row
survives exactly when it is complete — so columns outside the user's mapping
are both modified and able to cause row exclusion. -/
theorem load_csv_frame_effect (pN pD : String → Option Int) (t : List Row) :
    (∀ r ∈ load_csv pN pD t, ∀ p ∈ r, p.2 ≠ Val.na) ∧
    (∀ r ∈ load_csv pN pD t, ∀ p ∈ r,
      (amountLike p.1 = true → ∃ n, p.2 = Val.vnum n) ∧
      (strContains p.1 "date" = true → amountLike p.1 = false →
        ∃ d, p.2 = Val.vdate d)) ∧
    (∀ r0 ∈ t, rowComplete (loadCoerceRow pN pD r0) = true →
      loadCoerceRow pN pD r0 ∈ load_csv pN pD t) ∧
    (∀ r0 ∈ t, rowComplete (loadCoerceRow pN pD r0) = false →
      loadCoerceRow pN pD r0 ∉ load_csv pN pD t) := by
  refine ⟨load_csv_no_na, load_csv_typed, ?_, ?_⟩
  · intro r0 hr0 hcomp
    exact mem_load_csv.mpr ⟨⟨r0, hr0, rfl⟩, hcomp⟩
  · intro r0 _ hcomp hmem
    rw [(mem_load_csv.mp hmem).2] at hcomp
    exact Bool.noConfusion hcomp

/-- Witness for C10 at a concrete input: the parseable row survives (with
typed cells), the row whose date string fails to parse is dropped by the
whole-row `dropna`. -/
theorem load_csv_frame_effect_witness :
    loadCoerceRow parseDigits parseDigits
        [("Txn Date", Val.vstr "105"), ("Amount", Val.vstr "7")]
      ∈ load_csv parseDigits parseDigits
        [[("Txn Date", Val.vstr "105"), ("Amount", Val.vstr "7")],
         [("Txn Date", Val.vstr "bad"), ("Amount", Val.vstr "8")]] ∧
    loadCoerceRow parseDigits parseDigits
        [("Txn Date", Val.vstr "bad"), ("Amount", Val.vstr "8")]
      ∉ load_csv parseDigits parseDigits
        [[("Txn Date", Val.vstr "105"), ("Amount", Val.vstr "7")],
         [("Txn Date", Val.vstr "bad"), ("Amount", Val.vstr "8")]] :=
  ⟨(load_csv_frame_effect parseDigits parseDigits
        [[("Txn Date", Val.vstr "105"), ("Amount", Val.vstr "7")],
         [("Txn Date", Val.vstr "bad"), ("Amount", Val.vstr "8")]]).2.2.1
      [("Txn Date", Val.vstr "105"), ("Amount", Val.vstr "7")]
      (by decide) (by decide),
    (load_csv_frame_effect parseDigits parseDigits
        [[("Txn Date", Val.vstr "105"), ("Amount", Val.vstr "7")],
         [("Txn Date", Val.vstr "bad"), ("Amount", Val.vstr "8")]]).2.2.2
      [("Txn Date", Val.vstr "bad"), ("Amount", Val.vstr "8")]
      (by decide) (by decide)⟩

end Dashboard
